import Mathlib

/-!
Verification development for the sqlalchemy excerpt: the
`postgresql+pypostgresql` dialect adapter
(`lib/sqlalchemy/dialects/postgresql/pypostgresql.py`) and the declarative
inheritance mapping engine exercised by
`test/ext/declarative/test_inheritance.py`.

The dialect adapter functions are embedded directly from the source.  The
inheritance engine itself (hierarchy resolution, schema synthesis, the
polymorphic union builder, the deferred mapping configurator) is not part of
the excerpt — only its test suite is — so those components are modelled from
the specification, as marked on each definition.
-/

namespace SqlAlchemy

/-- A value held in the driver keyword-options dictionary: Python values in
`create_connect_args` are either strings (URL components and query
parameters) or integers (the coerced port). -/
inductive ConnVal where
  | str (s : String)
  | int (n : Int)
deriving DecidableEq

/-- Python dictionary assignment `d[k] = v` on an insertion-ordered
dictionary (keys unique): an existing key keeps its position and gets the
new value, a new key is appended at the end. -/
def dictSet {α : Type} : List (String × α) → String → α →
    List (String × α)
  | [], k, v => [(k, v)]
  | p :: d, k, v => if p.1 == k then (k, v) :: d else p :: dictSet d k v

/-- Python dictionary lookup `d[k]` / `k in d` on an insertion-ordered
dictionary with unique keys. -/
def dictGet {α : Type} (d : List (String × α)) (k : String) : Option α :=
  (d.find? (fun p => p.1 == k)).map (·.2)

/-- Python `d.update(src)`: assign every entry of `src` into `d`, in order. -/
def dictUpd {α : Type} (d : List (String × α)) (src : List (String × α)) :
    List (String × α) :=
  src.foldl (fun acc p => dictSet acc p.1 p.2) d

/-- A structured connection URL, as consumed by `create_connect_args`: the
optional user/password/host/port/database components and the query-string
parameters (a dictionary, so keys are expected unique).  The port component
is kept in its raw string form so that the `int(...)` coercion performed by
`create_connect_args` is explicit. -/
structure URL where
  username : Option String
  password : Option String
  host : Option String
  port : Option String
  database : Option String
  query : List (String × String)

/-- One optional entry of the translated options dictionary. -/
def optEntry (k : String) : Option String → List (String × ConnVal)
  | none => []
  | some s => [(k, ConnVal.str s)]

/-- Modelled from the spec: `URL.translate_connect_args(username="user")`
(the `URL` class is not part of the excerpt).  It "translates a structured
connection URL into driver-call arguments" and "must map the URL's user
field to the driver's `user` keyword": every present structured component is
emitted under its driver name, the username under the key `user`. -/
def translate_connect_args (u : URL) : List (String × ConnVal) :=
  optEntry "host" u.host ++ optEntry "database" u.database ++
  optEntry "user" u.username ++ optEntry "password" u.password ++
  optEntry "port" u.port

/-- Decimal value of one character, `none` for a non-digit. -/
def digitVal (c : Char) : Option Nat :=
  if 48 ≤ c.toNat ∧ c.toNat ≤ 57 then some (c.toNat - 48) else none

/-- Reads a nonempty all-digit character list as a natural number. -/
def digitsToNat : List Char → Option Nat
  | [] => none
  | cs => cs.foldl (fun acc c => match acc, digitVal c with
      | some a, some d => some (a * 10 + d)
      | _, _ => none) (some 0)

/-- Python `int(s)` on a string: an optional leading minus sign followed by
decimal digits; anything else raises, modelled as `none`. -/
def pyStrToInt (s : String) : Option Int :=
  match s.toList with
  | '-' :: rest => (digitsToNat rest).map (fun n => -(n : Int))
  | l => (digitsToNat l).map (fun n => (n : Int))

/-- Python `int(v)` on a dictionary value: parses a string, is the identity
on an integer, and fails (raises) on a non-numeric string. -/
def pyIntVal : ConnVal → Option Int
  | ConnVal.str s => pyStrToInt s
  | ConnVal.int n => some n

/-- Embedding of `PGDialect_pypostgresql.create_connect_args` (source lines
113-120): translate the URL, coerce a present `port` to an integer (a
raising `int(...)` call is modelled as `none`), default an absent port to
`5432`, merge the query parameters last, and return `([], opts)`. -/
def create_connect_args (url : URL) :
    Option (List ConnVal × List (String × ConnVal)) :=
  let opts := translate_connect_args url
  let opts2 : Option (List (String × ConnVal)) :=
    match dictGet opts "port" with
    | some v => (pyIntVal v).map (fun n => dictSet opts "port" (ConnVal.int n))
    | none => some (dictSet opts "port" (ConnVal.int 5432))
  opts2.map (fun o =>
    ([], dictUpd o (url.query.map (fun p => (p.1, ConnVal.str p.2)))))

/-- Python substring containment `pat in s`, computed over the character
lists: some tail of `s` starts with `pat`. -/
def strContains (s pat : String) : Bool :=
  s.toList.tails.any (fun t => pat.toList.isPrefixOf t)

/-- Embedding of `PGDialect_pypostgresql.is_disconnect` (source lines
122-123): `"connection is closed" in str(e)`.  The error is passed already
stringified; the connection and cursor arguments are taken at arbitrary
types since the source never inspects them. -/
def is_disconnect {α β : Type} (e : String) (connection : α) (cursor : β) :
    Bool :=
  strContains e "connection is closed"

/-- The concrete URL refuting claim C7 as universally stated: no structured
port, but the query string itself supplies `user` and `port` parameters. -/
def urlQueryOverride : URL :=
  { username := some "scott", password := none, host := some "localhost",
    port := none, database := none,
    query := [("user", "qu"), ("port", "override")] }

/-- Modelled from the spec (§4.1, §9): a declared class node of the
hierarchy graph — its name, whether it is already a mapped class, whether
it is explicitly marked abstract, and its declared base classes.  The
inheritance engine itself is not part of the excerpt. -/
inductive ClassNode where
  | cls (name : String) (mapped : Bool) (abstract : Bool)
      (bases : List ClassNode)

mutual

/-- Modelled from the spec (§4.1): walking one declared base of a new
class: an already-mapped base is itself the candidate; an unmapped base
(including an explicitly abstract intermediate) is transparently skipped
and contributes the mapped classes reachable through its own bases. -/
def mappedBasesOf : ClassNode → List String
  | .cls n mapped _ bases => if mapped then [n] else mappedBasesList bases

/-- Walks a declared base list in order, concatenating the nearest mapped
classes found through each base. -/
def mappedBasesList : List ClassNode → List String
  | [] => []
  | c :: cs => mappedBasesOf c ++ mappedBasesList cs

end

/-- First-occurrence deduplication (a diamond can reach the same mapped
ancestor through two paths; it is one ancestor, not two). -/
def dedupFirst (seen : List String) : List String → List String
  | [] => []
  | x :: xs =>
    if x ∈ seen then dedupFirst seen xs else x :: dedupFirst (x :: seen) xs

/-- Configuration-time errors of the resolution engine (spec §7). -/
inductive ConfigError where
  | multipleMappedBases (cls : String) (bases : List String)
  | columnConflict (key : String)
deriving DecidableEq

/-- Modelled from the spec (§4.1): find the mapped base of a newly declared
class among its declared ancestor chain; zero or one independent mapped
ancestor resolves, two or more fail with a ConfigurationError naming the
conflicting bases. -/
def resolveMappedBase (cls : String) (bases : List ClassNode) :
    Except ConfigError (Option String) :=
  match dedupFirst [] (mappedBasesList bases) with
  | [] => Except.ok none
  | [m] => Except.ok (some m)
  | m1 :: m2 :: rest => Except.error (.multipleMappedBases cls (m1 :: m2 :: rest))

/-- SQL column types appearing in the modelled schemas. -/
inductive SqlType where
  | integer
  | varchar (n : Nat)
deriving DecidableEq

/-- Modelled from the spec (§3, §9): a ColumnSpec — attribute key, physical
name, type, primary-key flag, foreign-key targets as (table, physical name)
references, and an explicit identity token standing for Python object
identity. -/
structure ColumnSpec where
  ident : Nat
  key : String
  physName : String
  ty : SqlType
  isPrimary : Bool
  fkTargets : List (String × String)
deriving DecidableEq

/-- Modelled from the spec (§3): a named physical table owning an ordered
sequence of columns. -/
structure PhysicalTable where
  name : String
  cols : List ColumnSpec
deriving DecidableEq

/-- Modelled from the spec (§4.3): the column-precedence resolver for
joined-table inheritance.  For an attribute backed by a column `c` of the
child's own table, if `c` is a primary-key column carrying a foreign key to
a primary-key column of the parent's table, the attribute binding is the
two-element list with the child's column first and the parent's column
second (descending specificity); otherwise it is just the child's column. -/
def attributeBinding (parent child : PhysicalTable) (c : ColumnSpec) :
    List (String × String) :=
  if c.isPrimary then
    match parent.cols.find? (fun p =>
        p.isPrimary && c.fkTargets.contains (parent.name, p.physName)) with
    | some p => [(child.name, c.physName), (parent.name, p.physName)]
    | none => [(child.name, c.physName)]
  else [(child.name, c.physName)]

/-- Modelled from the spec (§4.2a, §9): declaring a column with key `c.key`
on a single-table subclass whose shared base table is `t`.  A key already
present on the table is a conflict error unless the redeclaration returns
the existing column object unchanged — compared by the identity token, not
by value equality — in which case the table is left as it is and the
attribute binds the existing column.  A fresh key is merged onto the shared
table. -/
def declareSubColumn (t : PhysicalTable) (c : ColumnSpec) :
    Except ConfigError (PhysicalTable × List ColumnSpec) :=
  match t.cols.find? (fun e => e.key == c.key) with
  | some e =>
    if c.ident == e.ident then Except.ok (t, [e])
    else Except.error (.columnConflict c.key)
  | none => Except.ok ({ t with cols := t.cols ++ [c] }, [c])

/-- A mapper-argument value: a column reference (the polymorphic
discriminator), a class reference (the internal `inherits` argument), a
plain string, or a list of strings. -/
inductive MapperArgVal where
  | column (table physName : String)
  | clsRef (cls : String)
  | strVal (s : String)
  | strList (l : List String)
deriving DecidableEq

/-- Whether a mapper-argument value is a column reference. -/
def MapperArgVal.isColumn : MapperArgVal → Bool
  | .column _ _ => true
  | _ => false

/-- Modelled from the spec and `test_we_must_copy_mapper_args` /
`test_we_must_only_copy_column_mapper_args`: the effective mapper arguments
of a newly declared subclass are computed on a fresh copy — the parent's
dictionary restricted to its column-valued entries (the polymorphic
discriminator), overridden by the subclass's own declared entries, with the
internal `inherits` entry added to that copy only. -/
def childMapperArgs (parentName : String)
    (parentArgs declared : List (String × MapperArgVal)) :
    List (String × MapperArgVal) :=
  dictUpd (parentArgs.filter (fun p => p.2.isColumn))
    (declared ++ [("inherits", MapperArgVal.clsRef parentName)])

/-- Modelled from the spec: the registry step for declaring a subclass —
the parent's stored mapper-args entry is read, the child's effective
arguments are computed on a copy, and only the child's registry entry is
written. -/
def declareSubclassArgs
    (reg : List (String × List (String × MapperArgVal)))
    (clsName parentName : String)
    (declared : List (String × MapperArgVal)) :
    List (String × List (String × MapperArgVal)) :=
  match dictGet reg parentName with
  | some pargs =>
    dictSet reg clsName (childMapperArgs parentName pargs declared)
  | none => dictSet reg clsName declared

/-- Modelled from the spec (§4.2 single-table mode): one class of a
single-table hierarchy — its name, the index of its parent class in the
declaration list (none for the table-defining root), and the attribute keys
of the columns it declares. -/
structure SingleTableClass where
  name : String
  parent : Option Nat
  declaredKeys : List String
deriving DecidableEq

/-- The parent index of class `i`, `none` past the end or at the root. -/
def parentIdx (h : List SingleTableClass) (i : Nat) : Option Nat :=
  match h[i]? with
  | some e => e.parent
  | none => none

/-- The attribute keys of the columns class `i` itself declares. -/
def colsAt (h : List SingleTableClass) (i : Nat) : List String :=
  match h[i]? with
  | some e => e.declaredKeys
  | none => []

/-- Walks the parent chain for at most `fuel` steps; a parent pointer not
strictly decreasing (malformed) stops the walk. -/
def ancestorChain : Nat → List SingleTableClass → Nat → List Nat
  | 0, _, _ => []
  | fuel + 1, h, i =>
    match parentIdx h i with
    | some p => if p < i then p :: ancestorChain fuel h p else []
    | none => []

/-- The ancestor indices of class `i`, nearest first: classes are declared
after their parents, so `i` steps of walking always suffice. -/
def ancestors (h : List SingleTableClass) (i : Nat) : List Nat :=
  ancestorChain (i + 1) h i

/-- Modelled from the spec (§4.2): the attribute keys exposed on class `i`
— its own declared columns and those of its ancestors, even though all
columns physically live on the root's shared table. -/
def accessibleKeys (h : List SingleTableClass) (i : Nat) : List String :=
  colsAt h i ++ (ancestors h i).flatMap (colsAt h)

/-- Modelled from the spec (§4.2): the column keys merged onto the root's
shared physical table — every class's declared columns, in hierarchy
declaration order. -/
def mergedTableKeys (h : List SingleTableClass) : List String :=
  h.flatMap SingleTableClass.declaredKeys

/-- One projected item of a SELECT arm of the polymorphic union: a column
of the arm's own table, a NULL cast to the sibling's column type labelled
with the missing key, or the literal discriminator tag. -/
inductive ArmItem where
  | col (key : String)
  | nullCast (key : String) (ty : SqlType)
  | lit (value : String) (key : String)
deriving DecidableEq

/-- The output column label of a projected item. -/
def ArmItem.outKey : ArmItem → String
  | .col k => k
  | .nullCast k _ => k
  | .lit _ k => k

/-- One SELECT arm of the union: the projected items FROM the given table. -/
structure UnionArm where
  table : PhysicalTable
  items : List ArmItem
deriving DecidableEq

/-- The synthesized virtual table: its column sequence and its SELECT arms. -/
structure PolymorphicUnionSel where
  cols : List String
  arms : List UnionArm
deriving DecidableEq

/-- The union's column keys: first appearance over the table map order. -/
def unionColNames (tmap : List (String × PhysicalTable)) : List String :=
  dedupFirst [] (tmap.flatMap (fun p => p.2.cols.map ColumnSpec.key))

/-- The recorded type of a union column key: tables are scanned in map
order with later occurrences overwriting, so the last table carrying the
key decides. -/
def unionColType (tmap : List (String × PhysicalTable)) (k : String) :
    Option SqlType :=
  ((tmap.flatMap (fun p => p.2.cols)).reverse.find?
    (fun c => c.key == k)).map (·.ty)

/-- Whether a table carries a column under the attribute key `k`. -/
def tableHasKey (t : PhysicalTable) (k : String) : Bool :=
  t.cols.any (fun c => c.key == k)

/-- One SELECT arm for discriminator value `tag` over table `t`: every
union column in the shared order — the table's own column when it has the
key, otherwise NULL cast to the type recorded for the key — followed by the
literal discriminator tag. -/
def mkArm (tmap : List (String × PhysicalTable)) (colnames : List String)
    (tag : String) (t : PhysicalTable) (typecol : String) : UnionArm :=
  { table := t,
    items := colnames.map (fun k =>
        if tableHasKey t k then ArmItem.col k
        else ArmItem.nullCast k ((unionColType tmap k).getD SqlType.integer))
      ++ [ArmItem.lit tag typecol] }

/-- Modelled from the spec (§3 PolymorphicUnion, §8): synthesize the
union-of-tables virtual selectable from a discriminator-value-to-table map:
one SELECT arm per entry, all arms projecting the same column sequence with
identical NULL-cast types, each tagged with its discriminator literal. -/
def polymorphic_union (tmap : List (String × PhysicalTable))
    (typecolname : String) : PolymorphicUnionSel :=
  let colnames := unionColNames tmap
  { cols := colnames ++ [typecolname],
    arms := tmap.map (fun p => mkArm tmap colnames p.1 p.2 typecolname) }

/-- Modelled from the spec (§4.5, §8): a concrete subclass registered under
an abstract-concrete root — its polymorphic identity and its table. -/
structure ConcreteSub where
  identity : String
  table : PhysicalTable
deriving DecidableEq

/-- Modelled from the spec (§4.5, §8): the abstract-concrete root
synthesizes its union from the concrete subclasses known so far, the most
recently declared subclass giving the first arm. -/
def synthesizeUnion (subs : List ConcreteSub) (typecol : String) :
    PolymorphicUnionSel :=
  polymorphic_union (subs.reverse.map (fun s => (s.identity, s.table))) typecol

/-- Modelled from the spec (§4.5): the deferred mapping configurator state
of one abstract-concrete hierarchy root — the concrete subclasses declared
so far, in declaration order, and (when the root has been finalized with at
least one subclass) the subclass snapshot its current union was built
from.  `configured = none` is the Pending state. -/
structure AbstractRoot where
  subs : List ConcreteSub
  configured : Option (List ConcreteSub)
deriving DecidableEq

/-- The configuration-time operations on an abstract-concrete root. -/
inductive MapOp where
  | declareSub (s : ConcreteSub)
  | finalizeAll
deriving DecidableEq

/-- Modelled from the spec (§4.5): declaring a concrete subclass registers
it without touching the built union; the explicit finalize step rebuilds
the snapshot from the full current subclass set, and leaves the root
pending when no concrete subclass exists yet. -/
def stepOp (r : AbstractRoot) : MapOp → AbstractRoot
  | .declareSub s => { r with subs := r.subs ++ [s] }
  | .finalizeAll =>
    if r.subs.isEmpty then { r with configured := none }
    else { r with configured := some r.subs }

/-- Whether the root's mapping is still pending. -/
def isPending (r : AbstractRoot) : Bool :=
  r.configured.isNone

/-- Mapping-level errors: the mapping-pending error is distinct from the
generic unmapped-class error and carries the count and identities of the
known subclasses. -/
inductive OrmError where
  | mappingPending (count : Nat) (known : List String)
  | unmappedClass (cls : String)
deriving DecidableEq

/-- Modelled from the spec (§4.5): querying (or compiling or introspecting)
the root: while Pending it fails with the mapping-pending error carrying
the known subclasses; once Configured it exposes the union synthesized at
the last finalize. -/
def queryRoot (r : AbstractRoot) : Except OrmError PolymorphicUnionSel :=
  match r.configured with
  | none => Except.error
      (.mappingPending r.subs.length (r.subs.map ConcreteSub.identity))
  | some snap => Except.ok (synthesizeUnion snap "type")

/-- A SQL value flowing through the union: NULL, a string, or an integer. -/
inductive Value where
  | null
  | str (s : String)
  | int (n : Int)
deriving DecidableEq

/-- The position of attribute key `k` among the columns of table `t`. -/
def colIdx (t : PhysicalTable) (k : String) : Nat :=
  t.cols.findIdx (fun c => c.key == k)

/-- Evaluating one projected item against a row of the arm's table: an own
column reads the row at the column's position, a NULL cast yields NULL, and
the discriminator tag yields its literal string. -/
def evalItem (t : PhysicalTable) (row : List Value) : ArmItem → Value
  | .col k => row.getD (colIdx t k) Value.null
  | .nullCast _ _ => Value.null
  | .lit v _ => Value.str v

/-- Evaluating a SELECT arm on one row of its table. -/
def evalArm (arm : UnionArm) (row : List Value) : List Value :=
  arm.items.map (evalItem arm.table row)

/-- The rows of the union: each arm's projection of its table's rows,
concatenated in arm order (UNION ALL); `data` maps table names to rows. -/
def evalUnion (u : PolymorphicUnionSel)
    (data : List (String × List (List Value))) : List (List Value) :=
  u.arms.flatMap (fun arm =>
    ((dictGet data arm.table.name).getD []).map (evalArm arm))

/-- Filtering union rows by a discriminator value: the discriminator is the
union's last column. -/
def filterByTag (u : PolymorphicUnionSel) (tag : String)
    (rows : List (List Value)) : List (List Value) :=
  rows.filter (fun r =>
    r.getD (u.cols.length - 1) Value.null == Value.str tag)

/-- The engineer leaf table of the claimed hierarchy:
`[id, name, primary_language]`. -/
def engineerTable : PhysicalTable :=
  ⟨"engineer", [⟨41, "id", "id", .integer, true, []⟩,
    ⟨42, "name", "name", .varchar 50, false, []⟩,
    ⟨43, "primary_language", "primary_language", .varchar 50, false, []⟩]⟩

/-- The manager leaf table of the claimed hierarchy:
`[id, name, golf_swing]`. -/
def managerTable : PhysicalTable :=
  ⟨"manager", [⟨44, "id", "id", .integer, true, []⟩,
    ⟨45, "name", "name", .varchar 50, false, []⟩,
    ⟨46, "golf_swing", "golf_swing", .varchar 40, false, []⟩]⟩

/-- The union the abstract-concrete root synthesizes over the hierarchy
whose concrete subclasses are declared engineer first, manager second. -/
def empUnion : PolymorphicUnionSel :=
  synthesizeUnion
    [⟨"engineer", engineerTable⟩, ⟨"manager", managerTable⟩] "type"

/-- Looking up the key just assigned returns the assigned value. -/
theorem dictGet_dictSet_self {α : Type} (d : List (String × α)) (k : String)
    (v : α) : dictGet (dictSet d k v) k = some v := by
  induction d with
  | nil => simp [dictSet, dictGet]
  | cons p d ih =>
    by_cases hp : p.1 = k
    · simp [dictSet, dictGet, hp]
    · simp only [dictSet, beq_iff_eq, hp, if_false]
      simpa [dictGet, List.find?_cons, beq_iff_eq, hp] using ih

/-- Assigning one key leaves lookups of other keys unchanged. -/
theorem dictGet_dictSet_ne {α : Type} (d : List (String × α)) {k k' : String}
    (h : k ≠ k') (v : α) :
    dictGet (dictSet d k' v) k = dictGet d k := by
  induction d with
  | nil => simp [dictSet, dictGet, Ne.symm h]
  | cons p d ih =>
    by_cases hp : p.1 = k'
    · simp [dictSet, dictGet, hp, Ne.symm h, List.find?_cons]
    · by_cases hpk : p.1 = k
      · simp [dictSet, dictGet, hp, hpk, h, List.find?_cons]
      · simp only [dictSet, beq_iff_eq, hp, if_false]
        simpa [dictGet, List.find?_cons, beq_iff_eq, hpk] using ih

/-- Updating with entries none of which carries key `k` leaves the lookup of
`k` unchanged. -/
theorem dictGet_dictUpd_not_mem {α : Type} (d src : List (String × α))
    (k : String) (h : ∀ p ∈ src, p.1 ≠ k) :
    dictGet (dictUpd d src) k = dictGet d k := by
  induction src generalizing d with
  | nil => rfl
  | cons p src ih =>
    have hp : p.1 ≠ k := h p (List.mem_cons_self _ _)
    have hrest : ∀ q ∈ src, q.1 ≠ k := fun q hq => h q (List.mem_cons_of_mem _ hq)
    calc dictGet (dictUpd (dictSet d p.1 p.2) src) k
        = dictGet (dictSet d p.1 p.2) k := ih _ hrest
      _ = dictGet d k := dictGet_dictSet_ne _ (Ne.symm hp) _

/-- Updating with a key-unique entry list makes each of its entries win the
final lookup. -/
theorem dictGet_dictUpd_mem {α : Type} (d src : List (String × α)) (k : String)
    (v : α) (hnd : (src.map Prod.fst).Nodup) (hm : (k, v) ∈ src) :
    dictGet (dictUpd d src) k = some v := by
  induction src generalizing d with
  | nil => cases hm
  | cons p src ih =>
    rcases List.mem_cons.mp hm with heq | hmem
    · subst heq
      have hk : ∀ q ∈ src, q.1 ≠ k := by
        intro q hq hqk
        have : k ∉ src.map Prod.fst := by
          simpa using (List.nodup_cons.mp hnd).1
        exact this (hqk ▸ List.mem_map_of_mem Prod.fst hq)
      calc dictGet (dictUpd (dictSet d k v) src) k
          = dictGet (dictSet d k v) k := dictGet_dictUpd_not_mem _ _ _ hk
        _ = some v := dictGet_dictSet_self _ _ _
    · exact ih _ hnd.of_cons hmem

/-- The translated options list the username, when present, under the
driver keyword `user`. -/
theorem dictGet_translate_user (u : URL) :
    dictGet (translate_connect_args u) "user" = u.username.map ConnVal.str := by
  rcases u with ⟨un, pw, h, po, db, q⟩
  cases h <;> cases db <;> cases un <;> cases pw <;> cases po <;>
    simp [translate_connect_args, optEntry, dictGet, List.find?_cons]

/-- The translated options list the raw port string, when present, under
the driver keyword `port`, and omit the key otherwise. -/
theorem dictGet_translate_port (u : URL) :
    dictGet (translate_connect_args u) "port" = u.port.map ConnVal.str := by
  rcases u with ⟨un, pw, h, po, db, q⟩
  cases h <;> cases db <;> cases un <;> cases pw <;> cases po <;>
    simp [translate_connect_args, optEntry, dictGet, List.find?_cons]

/-- C8: for every error object, connection and cursor, `is_disconnect`
returns true exactly when the stringified error contains the substring
`"connection is closed"`, and the connection and cursor arguments (taken at
arbitrary types, even differing between the two calls) have no influence on
the result. -/
theorem is_disconnect_iff_contains {α β γ δ : Type} (e : String) (c : α)
    (k : β) (c2 : γ) (k2 : δ) :
    (is_disconnect e c k = true ↔
      ∃ s t, e.toList = s ++ "connection is closed".toList ++ t)
    ∧ is_disconnect e c k = is_disconnect e c2 k2 := by
  constructor
  · unfold is_disconnect strContains
    rw [List.any_eq_true]
    constructor
    · rintro ⟨t, ht, hp⟩
      rw [List.mem_tails] at ht
      rw [List.isPrefixOf_iff_prefix] at hp
      obtain ⟨s, t2, hst⟩ :=
        List.infix_iff_prefix_suffix.mpr ⟨t, hp, ht⟩
      exact ⟨s, t2, hst.symm⟩
    · rintro ⟨s, t, hst⟩
      obtain ⟨t2, hp, ht⟩ :=
        List.infix_iff_prefix_suffix.mp ⟨s, t, hst.symm⟩
      exact ⟨t2, (List.mem_tails _ _).mpr ht, List.isPrefixOf_iff_prefix.mpr hp⟩
  · rfl

/-- C7 counterexample: on `urlQueryOverride` the claim demands keyword
`user` bound to the URL's user field `"scott"` and keyword `port` bound to
the integer default `5432` (the URL has no port), but the query parameters
are merged last and overwrite both. -/
theorem create_connect_args_not_always_structured :
    ¬ ((create_connect_args urlQueryOverride).map
        (fun r => (dictGet r.2 "user", dictGet r.2 "port")) =
      some (some (ConnVal.str "scott"), some (ConnVal.int 5432))) := by
  decide

/-- C7 (amended): for every connection URL whose query string supplies
neither a `user` nor a `port` parameter (and whose query keys are unique,
it being a dictionary), a successful `create_connect_args` yields keyword
options in which the URL's user field appears under the keyword `user`, the
`port` keyword equals `5432` when the URL has no port and the integer
coercion of the URL's port when present, and every URL query parameter
appears verbatim. -/
theorem create_connect_args_spec (u : URL)
    (r : List ConnVal × List (String × ConnVal))
    (hr : create_connect_args u = some r)
    (hqu : ∀ p ∈ u.query, p.1 ≠ "user")
    (hqp : ∀ p ∈ u.query, p.1 ≠ "port")
    (hnd : (u.query.map Prod.fst).Nodup) :
    (∀ name, u.username = some name →
      dictGet r.2 "user" = some (ConnVal.str name))
    ∧ (u.port = none → dictGet r.2 "port" = some (ConnVal.int 5432))
    ∧ (∀ s, u.port = some s →
        ∃ n, pyStrToInt s = some n ∧
          dictGet r.2 "port" = some (ConnVal.int n))
    ∧ (∀ k v, (k, v) ∈ u.query → dictGet r.2 k = some (ConnVal.str v)) := by
  have hqu2 : ∀ p ∈ u.query.map (fun p => (p.1, ConnVal.str p.2)),
      p.1 ≠ "user" := by
    intro p hp
    obtain ⟨q, hq, rfl⟩ := List.mem_map.mp hp
    exact hqu q hq
  have hqp2 : ∀ p ∈ u.query.map (fun p => (p.1, ConnVal.str p.2)),
      p.1 ≠ "port" := by
    intro p hp
    obtain ⟨q, hq, rfl⟩ := List.mem_map.mp hp
    exact hqp q hq
  have hnd2 : ((u.query.map (fun p => (p.1, ConnVal.str p.2))).map
      Prod.fst).Nodup := by
    simpa [List.map_map, Function.comp] using hnd
  cases hpo : u.port with
  | none =>
    simp only [create_connect_args, dictGet_translate_port, hpo,
      Option.map_none', Option.map_some'] at hr
    obtain rfl :
        r = ([], dictUpd
          (dictSet (translate_connect_args u) "port" (ConnVal.int 5432))
          (u.query.map (fun p => (p.1, ConnVal.str p.2)))) := by
      exact (Option.some_injective _ hr).symm
    refine ⟨?_, ?_, ?_, ?_⟩
    · intro name hname
      rw [dictGet_dictUpd_not_mem _ _ _ hqu2,
        dictGet_dictSet_ne _ (by decide) _,
        dictGet_translate_user, hname]
      rfl
    · intro _
      rw [dictGet_dictUpd_not_mem _ _ _ hqp2, dictGet_dictSet_self]
    · intro s hs
      exact Option.noConfusion hs
    · intro k v hkv
      exact dictGet_dictUpd_mem _ _ _ _ hnd2
        (List.mem_map.mpr ⟨(k, v), hkv, rfl⟩)
  | some s =>
    simp only [create_connect_args, dictGet_translate_port, hpo,
      Option.map_some', pyIntVal, Option.map_eq_some'] at hr
    obtain ⟨o, ho, hro⟩ := hr
    obtain ⟨n, hn, rfl⟩ := ho
    obtain rfl :
        r = ([], dictUpd
          (dictSet (translate_connect_args u) "port" (ConnVal.int n))
          (u.query.map (fun p => (p.1, ConnVal.str p.2)))) := by
      exact hro.symm
    refine ⟨?_, ?_, ?_, ?_⟩
    · intro name hname
      rw [dictGet_dictUpd_not_mem _ _ _ hqu2,
        dictGet_dictSet_ne _ (by decide) _,
        dictGet_translate_user, hname]
      rfl
    · intro hnone
      exact Option.noConfusion hnone
    · intro s2 hs2
      injection hs2 with h12
      subst h12
      exact ⟨n, hn, by
        rw [dictGet_dictUpd_not_mem _ _ _ hqp2, dictGet_dictSet_self]⟩
    · intro k v hkv
      exact dictGet_dictUpd_mem _ _ _ _ hnd2
        (List.mem_map.mpr ⟨(k, v), hkv, rfl⟩)

/-- Witness for the amended C7 at a concrete URL carrying a user, a port
`"5433"` and one query parameter. -/
theorem create_connect_args_spec_witness :
    dictGet [("host", ConnVal.str "h"), ("database", ConnVal.str "db"),
        ("user", ConnVal.str "scott"), ("port", ConnVal.int 5433),
        ("sslmode", ConnVal.str "require")] "user" =
      some (ConnVal.str "scott") ∧
    dictGet [("host", ConnVal.str "h"), ("database", ConnVal.str "db"),
        ("user", ConnVal.str "scott"), ("port", ConnVal.int 5433),
        ("sslmode", ConnVal.str "require")] "port" =
      some (ConnVal.int 5433) ∧
    dictGet [("host", ConnVal.str "h"), ("database", ConnVal.str "db"),
        ("user", ConnVal.str "scott"), ("port", ConnVal.int 5433),
        ("sslmode", ConnVal.str "require")] "sslmode" =
      some (ConnVal.str "require") := by
  have h := create_connect_args_spec
    ⟨some "scott", none, some "h", some "5433", some "db",
      [("sslmode", "require")]⟩
    ([], [("host", ConnVal.str "h"), ("database", ConnVal.str "db"),
      ("user", ConnVal.str "scott"), ("port", ConnVal.int 5433),
      ("sslmode", ConnVal.str "require")])
    (by decide) (by decide) (by decide) (by decide)
  refine ⟨h.1 "scott" rfl, ?_, h.2.2.2 "sslmode" "require" (by decide)⟩
  obtain ⟨n, hn, hget⟩ := h.2.2.1 "5433" rfl
  have hn2 : n = 5433 := by
    have h5 : pyStrToInt "5433" = some (5433 : Int) := by decide
    rw [hn] at h5
    exact Option.some_injective _ h5
  rw [hn2] at hget
  exact hget

/-- C9: the positional-argument component of a successful
`create_connect_args` result is always the empty list, and URL query
parameters are merged last: a query-supplied `port` or `user` parameter
overwrites, with its raw string value, the value derived from the
structured URL fields. -/
theorem create_connect_args_query_precedence (u : URL)
    (r : List ConnVal × List (String × ConnVal))
    (hr : create_connect_args u = some r)
    (hnd : (u.query.map Prod.fst).Nodup) :
    r.1 = []
    ∧ (∀ v, ("port", v) ∈ u.query →
        dictGet r.2 "port" = some (ConnVal.str v))
    ∧ (∀ v, ("user", v) ∈ u.query →
        dictGet r.2 "user" = some (ConnVal.str v)) := by
  have hnd2 : ((u.query.map (fun p => (p.1, ConnVal.str p.2))).map
      Prod.fst).Nodup := by
    simpa [List.map_map, Function.comp] using hnd
  have main : ∀ o : List (String × ConnVal),
      r = ([], dictUpd o (u.query.map (fun p => (p.1, ConnVal.str p.2)))) →
      r.1 = []
      ∧ (∀ v, ("port", v) ∈ u.query →
          dictGet r.2 "port" = some (ConnVal.str v))
      ∧ (∀ v, ("user", v) ∈ u.query →
          dictGet r.2 "user" = some (ConnVal.str v)) := by
    rintro o rfl
    refine ⟨rfl, ?_, ?_⟩
    · intro v hv
      exact dictGet_dictUpd_mem _ _ _ _ hnd2
        (List.mem_map.mpr ⟨("port", v), hv, rfl⟩)
    · intro v hv
      exact dictGet_dictUpd_mem _ _ _ _ hnd2
        (List.mem_map.mpr ⟨("user", v), hv, rfl⟩)
  cases hgp : dictGet (translate_connect_args u) "port" with
  | none =>
    simp only [create_connect_args, hgp, Option.map_some'] at hr
    exact main _ (Option.some_injective _ hr).symm
  | some v =>
    simp only [create_connect_args, hgp, Option.map_eq_some'] at hr
    obtain ⟨o, ho, hro⟩ := hr
    obtain ⟨n, _, rfl⟩ := ho
    exact main _ hro.symm

/-- Witness for C9 at `urlQueryOverride`: the query-supplied `port` and
`user` values win. -/
theorem create_connect_args_query_precedence_witness :
    dictGet [("host", ConnVal.str "localhost"),
        ("user", ConnVal.str "qu"), ("port", ConnVal.str "override")]
      "port" = some (ConnVal.str "override") ∧
    dictGet [("host", ConnVal.str "localhost"),
        ("user", ConnVal.str "qu"), ("port", ConnVal.str "override")]
      "user" = some (ConnVal.str "qu") := by
  have h := create_connect_args_query_precedence urlQueryOverride
    ([], [("host", ConnVal.str "localhost"), ("user", ConnVal.str "qu"),
      ("port", ConnVal.str "override")])
    (by decide) (by decide)
  exact ⟨h.2.1 "override" (by decide), h.2.2 "qu" (by decide)⟩

/-- C3: for every newly declared class, if walking the ancestor chain
(skipping unmapped and abstract intermediates transparently — third
conjunct) finds two or more independent mapped ancestors, resolution fails
with a ConfigurationError naming the conflicting bases (in particular both
of the first two); with at most one mapped ancestor it succeeds. -/
theorem resolveMappedBase_spec (cls : String) (bases : List ClassNode) :
    ((dedupFirst [] (mappedBasesList bases)).length ≤ 1 →
      ∃ r, resolveMappedBase cls bases = Except.ok r)
    ∧ (∀ m1 m2 rest,
        dedupFirst [] (mappedBasesList bases) = m1 :: m2 :: rest →
        resolveMappedBase cls bases =
          Except.error (.multipleMappedBases cls (m1 :: m2 :: rest)))
    ∧ (∀ n a bs,
        mappedBasesOf (.cls n false a bs) = mappedBasesList bs) := by
  refine ⟨?_, ?_, ?_⟩
  · intro hle
    cases h : dedupFirst [] (mappedBasesList bases) with
    | nil => exact ⟨none, by simp [resolveMappedBase, h]⟩
    | cons m ms =>
      cases ms with
      | nil => exact ⟨some m, by simp [resolveMappedBase, h]⟩
      | cons m2 ms2 => simp [h] at hle
  · intro m1 m2 rest h
    simp [resolveMappedBase, h]
  · intro n a bs
    simp [mappedBasesOf]

/-- Witness for C3, mirroring `test_class_w_invalid_multiple_bases`: the
new class `Manager` declared with bases `SpecialPerson` (unmapped, itself
subclassing the mapped `Person`) and the mapped `DeclPerson` resolves to an
error naming `Person` and `DeclPerson`; with the mapped `DeclPerson` base
removed, resolution succeeds with `Person`. -/
theorem resolveMappedBase_spec_witness :
    resolveMappedBase "Manager"
      [ClassNode.cls "SpecialPerson" false false
        [ClassNode.cls "Person" true false []],
       ClassNode.cls "DeclPerson" true false []] =
      Except.error (.multipleMappedBases "Manager" ["Person", "DeclPerson"])
    ∧ resolveMappedBase "Manager"
      [ClassNode.cls "SpecialPerson" false false
        [ClassNode.cls "Person" true false []]] =
      Except.ok (some "Person") := by
  constructor
  · exact (resolveMappedBase_spec "Manager"
      [ClassNode.cls "SpecialPerson" false false
        [ClassNode.cls "Person" true false []],
       ClassNode.cls "DeclPerson" true false []]).2.1
      "Person" "DeclPerson" [] (by decide)
  · rfl

/-- C5: in joined-table inheritance, whenever the child's primary-key
column `c` carries a foreign key to the parent's primary-key column `p`
(whatever physical names either side carries), the attribute binding is the
ordered pair [child column, parent column]. -/
theorem attributeBinding_child_first (parent child : PhysicalTable)
    (c p : ColumnSpec)
    (hc : c.isPrimary = true)
    (hfind : parent.cols.find? (fun q =>
        q.isPrimary && c.fkTargets.contains (parent.name, q.physName)) =
      some p) :
    attributeBinding parent child c =
      [(child.name, c.physName), (parent.name, p.physName)] := by
  simp only [attributeBinding, hc, if_true, hfind]

/-- Witness for C5 at the four physical-name combinations of
`OverlapColPrecedenceTest`: default/default, overridden parent name `pid`,
overridden child name `eid`, and both overridden. -/
theorem attributeBinding_child_first_witness :
    attributeBinding ⟨"person", [⟨1, "id", "id", .integer, true, []⟩]⟩
      ⟨"engineer", []⟩ ⟨2, "id", "id", .integer, true, [("person", "id")]⟩ =
      [("engineer", "id"), ("person", "id")]
    ∧ attributeBinding ⟨"person", [⟨3, "id", "pid", .integer, true, []⟩]⟩
      ⟨"engineer", []⟩ ⟨4, "id", "id", .integer, true, [("person", "pid")]⟩ =
      [("engineer", "id"), ("person", "pid")]
    ∧ attributeBinding ⟨"person", [⟨5, "id", "id", .integer, true, []⟩]⟩
      ⟨"engineer", []⟩ ⟨6, "id", "eid", .integer, true, [("person", "id")]⟩ =
      [("engineer", "eid"), ("person", "id")]
    ∧ attributeBinding ⟨"person", [⟨7, "id", "pid", .integer, true, []⟩]⟩
      ⟨"engineer", []⟩ ⟨8, "id", "eid", .integer, true, [("person", "pid")]⟩ =
      [("engineer", "eid"), ("person", "pid")] :=
  ⟨attributeBinding_child_first ⟨"person", [⟨1, "id", "id", .integer, true, []⟩]⟩
     ⟨"engineer", []⟩ ⟨2, "id", "id", .integer, true, [("person", "id")]⟩
     ⟨1, "id", "id", .integer, true, []⟩ (by decide) (by decide),
   attributeBinding_child_first ⟨"person", [⟨3, "id", "pid", .integer, true, []⟩]⟩
     ⟨"engineer", []⟩ ⟨4, "id", "id", .integer, true, [("person", "pid")]⟩
     ⟨3, "id", "pid", .integer, true, []⟩ (by decide) (by decide),
   attributeBinding_child_first ⟨"person", [⟨5, "id", "id", .integer, true, []⟩]⟩
     ⟨"engineer", []⟩ ⟨6, "id", "eid", .integer, true, [("person", "id")]⟩
     ⟨5, "id", "id", .integer, true, []⟩ (by decide) (by decide),
   attributeBinding_child_first ⟨"person", [⟨7, "id", "pid", .integer, true, []⟩]⟩
     ⟨"engineer", []⟩ ⟨8, "id", "eid", .integer, true, [("person", "pid")]⟩
     ⟨7, "id", "pid", .integer, true, []⟩ (by decide) (by decide)⟩

/-- C6: on a single-table subclass, redeclaring an existing column key with
the identical column object (identity comparison) succeeds, leaves the
shared table unchanged, and produces the binding `[e]` that the attribute
has when not redeclared at all; redeclaring with a non-identical column
object — even one equal in value — is a conflict error. -/
theorem declareSubColumn_idempotent (t : PhysicalTable) (c e : ColumnSpec)
    (hfind : t.cols.find? (fun q => q.key == c.key) = some e) :
    (c.ident = e.ident → declareSubColumn t c = Except.ok (t, [e]))
    ∧ (c.ident ≠ e.ident →
        declareSubColumn t c = Except.error (.columnConflict c.key)) := by
  constructor
  · intro h
    simp [declareSubColumn, hfind, h]
  · intro h
    simp [declareSubColumn, hfind, h]

/-- Witness for C6, mirroring
`test_columns_single_inheritance_conflict_resolution`: `person.target_id`
(identity token 11) redeclared as the identical object succeeds with the
unchanged binding, while a value-equal column with a fresh identity token
12 errors. -/
theorem declareSubColumn_idempotent_witness :
    declareSubColumn
      ⟨"person", [⟨10, "id", "id", .integer, true, []⟩,
        ⟨11, "target_id", "target_id", .integer, false, [("other", "id")]⟩]⟩
      ⟨11, "target_id", "target_id", .integer, false, [("other", "id")]⟩ =
      Except.ok (⟨"person", [⟨10, "id", "id", .integer, true, []⟩,
        ⟨11, "target_id", "target_id", .integer, false, [("other", "id")]⟩]⟩,
        [⟨11, "target_id", "target_id", .integer, false, [("other", "id")]⟩])
    ∧ declareSubColumn
      ⟨"person", [⟨10, "id", "id", .integer, true, []⟩,
        ⟨11, "target_id", "target_id", .integer, false, [("other", "id")]⟩]⟩
      ⟨12, "target_id", "target_id", .integer, false, [("other", "id")]⟩ =
      Except.error (.columnConflict "target_id") :=
  ⟨(declareSubColumn_idempotent
      ⟨"person", [⟨10, "id", "id", .integer, true, []⟩,
        ⟨11, "target_id", "target_id", .integer, false, [("other", "id")]⟩]⟩
      ⟨11, "target_id", "target_id", .integer, false, [("other", "id")]⟩
      ⟨11, "target_id", "target_id", .integer, false, [("other", "id")]⟩
      (by decide)).1 (by decide),
   (declareSubColumn_idempotent
      ⟨"person", [⟨10, "id", "id", .integer, true, []⟩,
        ⟨11, "target_id", "target_id", .integer, false, [("other", "id")]⟩]⟩
      ⟨12, "target_id", "target_id", .integer, false, [("other", "id")]⟩
      ⟨11, "target_id", "target_id", .integer, false, [("other", "id")]⟩
      (by decide)).2 (by decide)⟩

/-- A lookup over entries none of which carries the key is `none`. -/
theorem dictGet_eq_none {α : Type} (d : List (String × α)) (k : String)
    (h : ∀ p ∈ d, p.1 ≠ k) : dictGet d k = none := by
  have : d.find? (fun p => p.1 == k) = none :=
    List.find?_eq_none.mpr (fun p hp => by simp [h p hp])
  simp [dictGet, this]

/-- A `none` lookup means no entry carries the key. -/
theorem not_mem_of_dictGet_eq_none {α : Type} (d : List (String × α))
    (k : String) (h : dictGet d k = none) : ∀ p ∈ d, p.1 ≠ k := by
  intro p hp hk
  cases hfind : d.find? (fun p => p.1 == k) with
  | none =>
    have := List.find?_eq_none.mp hfind p hp
    simp [hk] at this
  | some q => simp [dictGet, hfind] at h

/-- Value-filtering a key-unique dictionary keeps exactly the entries whose
value passes, so a lookup becomes a guarded lookup in the original. -/
theorem dictGet_filter {α : Type} (q : α → Bool) (d : List (String × α))
    (k : String) (hnd : (d.map Prod.fst).Nodup) :
    dictGet (d.filter (fun p => q p.2)) k =
      (dictGet d k).bind (fun v => if q v then some v else none) := by
  induction d with
  | nil => rfl
  | cons p d ih =>
    have hnd2 := List.nodup_cons.mp hnd
    by_cases hk : p.1 = k
    · have hnok : ∀ r ∈ d, r.1 ≠ k := by
        intro r hr hrk
        exact hnd2.1 (hk ▸ hrk ▸ List.mem_map_of_mem Prod.fst hr)
      have hfnone : dictGet (d.filter (fun p => q p.2)) k = none :=
        dictGet_eq_none _ _ (fun r hr => hnok r (List.mem_of_mem_filter hr))
      have hgetp : dictGet (p :: d) k = some p.2 := by
        simp [dictGet, List.find?_cons, hk]
      cases hq : q p.2 with
      | false =>
        rw [show List.filter (fun r => q r.2) (p :: d) =
            List.filter (fun r => q r.2) d by simp [List.filter_cons, hq],
          hfnone, hgetp]
        simp [hq]
      | true =>
        rw [show List.filter (fun r => q r.2) (p :: d) =
            p :: List.filter (fun r => q r.2) d by simp [List.filter_cons, hq],
          hgetp]
        have hgetf : dictGet (p :: List.filter (fun r => q r.2) d) k =
            some p.2 := by
          simp [dictGet, List.find?_cons, hk]
        rw [hgetf]
        simp [hq]
    · cases hq : q p.2 <;>
      · rw [show dictGet (p :: d) k = dictGet d k by
          simp [dictGet, List.find?_cons, hk]]
        rw [← ih hnd2.2]
        simp [List.filter_cons, hq, dictGet, List.find?_cons, hk]

/-- C10: declaring a subclass leaves the parent class's stored mapper-args
dictionary unchanged (so no `inherits` or other key is inserted into it);
a non-column-valued parent argument not redeclared by the child is absent
from the child's arguments — at key `polymorphic_identity` this makes an
undeclared subclass's polymorphic identity None — while the parent's
column-valued discriminator `polymorphic_on` is propagated to the child. -/
theorem declareSubclassArgs_spec
    (reg : List (String × List (String × MapperArgVal)))
    (clsName parentName : String)
    (declared pargs : List (String × MapperArgVal))
    (hget : dictGet reg parentName = some pargs)
    (hne : parentName ≠ clsName)
    (hnd : (pargs.map Prod.fst).Nodup) :
    dictGet (declareSubclassArgs reg clsName parentName declared) parentName
      = some pargs
    ∧ (∀ k, k ≠ "inherits" → dictGet declared k = none →
        (∀ v, dictGet pargs k = some v → v.isColumn = false) →
        dictGet (childMapperArgs parentName pargs declared) k = none)
    ∧ (∀ tb pn,
        dictGet pargs "polymorphic_on" = some (MapperArgVal.column tb pn) →
        dictGet declared "polymorphic_on" = none →
        dictGet (childMapperArgs parentName pargs declared) "polymorphic_on"
          = some (MapperArgVal.column tb pn)) := by
  refine ⟨?_, ?_, ?_⟩
  · simp only [declareSubclassArgs, hget]
    rw [dictGet_dictSet_ne _ hne, hget]
  · intro k hki hdecl hval
    have hupd : ∀ p ∈ declared ++ [("inherits", MapperArgVal.clsRef parentName)],
        p.1 ≠ k := by
      intro p hp
      rcases List.mem_append.mp hp with hp1 | hp2
      · exact not_mem_of_dictGet_eq_none _ _ hdecl p hp1
      · rcases List.mem_singleton.mp hp2 with rfl
        exact fun hc => hki hc.symm
    rw [childMapperArgs, dictGet_dictUpd_not_mem _ _ _ hupd,
      dictGet_filter _ _ _ hnd]
    cases hp : dictGet pargs k with
    | none => rfl
    | some v => simp [hval v hp]
  · intro tb pn hpar hdecl
    have hupd : ∀ p ∈ declared ++ [("inherits", MapperArgVal.clsRef parentName)],
        p.1 ≠ "polymorphic_on" := by
      intro p hp
      rcases List.mem_append.mp hp with hp1 | hp2
      · exact not_mem_of_dictGet_eq_none _ _ hdecl p hp1
      · rcases List.mem_singleton.mp hp2 with rfl
        simp
    rw [childMapperArgs, dictGet_dictUpd_not_mem _ _ _ hupd,
      dictGet_filter _ _ _ hnd, hpar]
    rfl

/-- Witness for C10 at the `test_we_must_copy_mapper_args` configuration:
`Person` maps `polymorphic_on` to the `people.type` column and
`polymorphic_identity` to `"person"`; `Engineer` declares nothing. -/
theorem declareSubclassArgs_spec_witness :
    dictGet (declareSubclassArgs
      [("Person", [("polymorphic_on", MapperArgVal.column "people" "type"),
        ("polymorphic_identity", MapperArgVal.strVal "person")])]
      "Engineer" "Person" []) "Person" =
      some [("polymorphic_on", MapperArgVal.column "people" "type"),
        ("polymorphic_identity", MapperArgVal.strVal "person")]
    ∧ dictGet (childMapperArgs "Person"
        [("polymorphic_on", MapperArgVal.column "people" "type"),
         ("polymorphic_identity", MapperArgVal.strVal "person")] [])
        "polymorphic_identity" = none
    ∧ dictGet (childMapperArgs "Person"
        [("polymorphic_on", MapperArgVal.column "people" "type"),
         ("polymorphic_identity", MapperArgVal.strVal "person")] [])
        "polymorphic_on" = some (MapperArgVal.column "people" "type") := by
  have h := declareSubclassArgs_spec
    [("Person", [("polymorphic_on", MapperArgVal.column "people" "type"),
      ("polymorphic_identity", MapperArgVal.strVal "person")])]
    "Engineer" "Person" []
    [("polymorphic_on", MapperArgVal.column "people" "type"),
     ("polymorphic_identity", MapperArgVal.strVal "person")]
    (by decide) (by decide) (by decide)
  refine ⟨h.1, h.2.1 "polymorphic_identity" (by decide) (by decide) ?_,
    h.2.2 "people" "type" (by decide) (by decide)⟩
  intro v hv
  have h2 : MapperArgVal.strVal "person" = v := Option.some_injective _ hv
  rw [← h2]
  rfl

/-- C4: in a single-table hierarchy where attribute key `k` is declared
exactly on class `a`, the key lives on the shared merged table, attribute
access succeeds on `a` itself and on every class having `a` in its ancestor
chain (its descendants), and fails on every other class — in particular on
every sibling subclass of `a` and on the hierarchy root. -/
theorem singleTableVisibility (h : List SingleTableClass) (k : String)
    (a : Nat) (hk : k ∈ colsAt h a)
    (huniq : ∀ j, k ∈ colsAt h j → j = a) :
    k ∈ mergedTableKeys h
    ∧ (∀ i, (i = a ∨ a ∈ ancestors h i) → k ∈ accessibleKeys h i)
    ∧ (∀ i, i ≠ a → a ∉ ancestors h i → k ∉ accessibleKeys h i) := by
  refine ⟨?_, ?_, ?_⟩
  · unfold colsAt at hk
    cases he : h[a]? with
    | none => rw [he] at hk; cases hk
    | some e =>
      rw [he] at hk
      exact List.mem_flatMap.mpr ⟨e, List.getElem?_mem he, hk⟩
  · intro i hi
    rcases hi with rfl | hanc
    · exact List.mem_append.mpr (Or.inl hk)
    · exact List.mem_append.mpr
        (Or.inr (List.mem_flatMap.mpr ⟨a, hanc, hk⟩))
  · intro i hia hanc hmem
    rcases List.mem_append.mp hmem with hown | hup
    · exact hia (huniq i hown)
    · obtain ⟨j, hj, hkj⟩ := List.mem_flatMap.mp hup
      exact hanc (huniq j hkj ▸ hj)

/-- Witness for C4 at the `test_single_three_levels` hierarchy
(Person ← Engineer ← JuniorEngineer, Person ← Manager):
`primary_language`, declared on Engineer (index 1), is merged onto the
shared table, accessible on Engineer and JuniorEngineer (index 2), and not
accessible on Manager (index 3) nor on the root Person (index 0). -/
theorem singleTableVisibility_witness :
    "primary_language" ∈ mergedTableKeys
      [⟨"Person", none, ["id", "name", "type"]⟩,
       ⟨"Engineer", some 0, ["primary_language"]⟩,
       ⟨"JuniorEngineer", some 1, ["nerf_gun"]⟩,
       ⟨"Manager", some 0, ["golf_swing"]⟩]
    ∧ "primary_language" ∈ accessibleKeys
      [⟨"Person", none, ["id", "name", "type"]⟩,
       ⟨"Engineer", some 0, ["primary_language"]⟩,
       ⟨"JuniorEngineer", some 1, ["nerf_gun"]⟩,
       ⟨"Manager", some 0, ["golf_swing"]⟩] 1
    ∧ "primary_language" ∈ accessibleKeys
      [⟨"Person", none, ["id", "name", "type"]⟩,
       ⟨"Engineer", some 0, ["primary_language"]⟩,
       ⟨"JuniorEngineer", some 1, ["nerf_gun"]⟩,
       ⟨"Manager", some 0, ["golf_swing"]⟩] 2
    ∧ "primary_language" ∉ accessibleKeys
      [⟨"Person", none, ["id", "name", "type"]⟩,
       ⟨"Engineer", some 0, ["primary_language"]⟩,
       ⟨"JuniorEngineer", some 1, ["nerf_gun"]⟩,
       ⟨"Manager", some 0, ["golf_swing"]⟩] 3
    ∧ "primary_language" ∉ accessibleKeys
      [⟨"Person", none, ["id", "name", "type"]⟩,
       ⟨"Engineer", some 0, ["primary_language"]⟩,
       ⟨"JuniorEngineer", some 1, ["nerf_gun"]⟩,
       ⟨"Manager", some 0, ["golf_swing"]⟩] 0 := by
  have huniq : ∀ j, "primary_language" ∈ colsAt
      [⟨"Person", none, ["id", "name", "type"]⟩,
       ⟨"Engineer", some 0, ["primary_language"]⟩,
       ⟨"JuniorEngineer", some 1, ["nerf_gun"]⟩,
       ⟨"Manager", some 0, ["golf_swing"]⟩] j → j = 1 := by
    intro j hj
    match j with
    | 0 => exact absurd hj (by decide)
    | 1 => rfl
    | 2 => exact absurd hj (by decide)
    | 3 => exact absurd hj (by decide)
    | n + 4 => exact absurd hj (by simp [colsAt])
  have h := singleTableVisibility
    [⟨"Person", none, ["id", "name", "type"]⟩,
     ⟨"Engineer", some 0, ["primary_language"]⟩,
     ⟨"JuniorEngineer", some 1, ["nerf_gun"]⟩,
     ⟨"Manager", some 0, ["golf_swing"]⟩]
    "primary_language" 1 (by decide) huniq
  exact ⟨h.1, h.2.1 1 (Or.inl rfl), h.2.1 2 (Or.inr (by decide)),
    h.2.2 3 (by decide) (by decide), h.2.2 0 (by decide) (by decide)⟩

/-- C2: (1) every query while Pending fails with the mapping-pending error
carrying the count and identities of the known subclasses; (2) the only
operation taking the root out of Pending is the explicit finalize; (3)
finalize before any concrete subclass exists leaves the root Pending; (4)
declaring a new concrete subclass after Configured leaves query results on
the stale union, not reflecting the new subclass; (5) running finalize
again reflects it — the query succeeds on the union rebuilt from the full
subclass set, which (6) now carries an arm for the new subclass's table. -/
theorem deferredConfigurator_spec (r : AbstractRoot) (s : ConcreteSub)
    (op : MapOp) :
    (isPending r = true →
      queryRoot r = Except.error
        (.mappingPending r.subs.length (r.subs.map ConcreteSub.identity)))
    ∧ (isPending r = true → isPending (stepOp r op) = false →
        op = MapOp.finalizeAll)
    ∧ (r.subs = [] → isPending (stepOp r MapOp.finalizeAll) = true)
    ∧ (isPending r = false →
        queryRoot (stepOp r (MapOp.declareSub s)) = queryRoot r)
    ∧ (queryRoot (stepOp (stepOp r (MapOp.declareSub s)) MapOp.finalizeAll)
        = Except.ok (synthesizeUnion (r.subs ++ [s]) "type"))
    ∧ (∃ arm ∈ (synthesizeUnion (r.subs ++ [s]) "type").arms,
        arm.table = s.table) := by
  refine ⟨?_, ?_, ?_, ?_, ?_, ?_⟩
  · intro hp
    unfold queryRoot
    unfold isPending at hp
    cases hc : r.configured with
    | none => rfl
    | some snap => rw [hc] at hp; cases hp
  · intro hp hnp
    cases op with
    | declareSub s2 =>
      exfalso
      have hsame : (stepOp r (MapOp.declareSub s2)).configured =
          r.configured := rfl
      unfold isPending at hp hnp
      rw [hsame] at hnp
      exact Bool.noConfusion (hp.symm.trans hnp)
    | finalizeAll => rfl
  · intro hs
    unfold stepOp
    rw [hs]
    rfl
  · intro hc
    unfold isPending at hc
    cases hcfg : r.configured with
    | none => rw [hcfg] at hc; cases hc
    | some snap => simp [stepOp, queryRoot, hcfg]
  · have hne : (r.subs ++ [s]).isEmpty = false := by
      simp
    simp [stepOp, queryRoot, hne]
  · refine ⟨mkArm ((r.subs ++ [s]).reverse.map (fun c => (c.identity, c.table)))
      (unionColNames ((r.subs ++ [s]).reverse.map (fun c => (c.identity, c.table))))
      s.identity s.table "type", ?_, rfl⟩
    unfold synthesizeUnion polymorphic_union
    simp only [List.reverse_append, List.reverse_cons, List.reverse_nil,
      List.nil_append, List.singleton_append, List.map_cons, List.mem_map]
    exact List.mem_cons_self _ _

/-- Witness for C2 following `test_abstract_concrete_base_didnt_configure`:
the freshly declared abstract root fails to query with the pending error
carrying zero subclasses; finalizing with no subclasses leaves it pending;
after declaring the concrete `Manager` subclass and finalizing, the query
succeeds with the union built over the manager table. -/
theorem deferredConfigurator_spec_witness :
    queryRoot ⟨[], none⟩ = Except.error (.mappingPending 0 [])
    ∧ isPending (stepOp ⟨[], none⟩ MapOp.finalizeAll) = true
    ∧ queryRoot (stepOp (stepOp ⟨[], none⟩
        (MapOp.declareSub ⟨"manager", ⟨"manager",
          [⟨31, "employee_id", "employee_id", .integer, true, []⟩,
           ⟨32, "name", "name", .varchar 50, false, []⟩,
           ⟨33, "golf_swing", "golf_swing", .varchar 40, false, []⟩]⟩⟩))
        MapOp.finalizeAll)
      = Except.ok (synthesizeUnion [⟨"manager", ⟨"manager",
          [⟨31, "employee_id", "employee_id", .integer, true, []⟩,
           ⟨32, "name", "name", .varchar 50, false, []⟩,
           ⟨33, "golf_swing", "golf_swing", .varchar 40, false, []⟩]⟩⟩]
          "type") := by
  have h1 := (deferredConfigurator_spec ⟨[], none⟩
    ⟨"manager", ⟨"manager",
      [⟨31, "employee_id", "employee_id", .integer, true, []⟩,
       ⟨32, "name", "name", .varchar 50, false, []⟩,
       ⟨33, "golf_swing", "golf_swing", .varchar 40, false, []⟩]⟩⟩
    MapOp.finalizeAll)
  exact ⟨h1.1 rfl, h1.2.2.1 rfl, h1.2.2.2.2.1⟩

/-- C1: for the abstract-concrete hierarchy with leaf tables
`{engineer: [id, name, primary_language], manager: [id, name, golf_swing]}`
the synthesized union has column sequence
`[id, name, golf_swing, primary_language, type]`; each arm projects that
same sequence, NULL-casting with the sibling's column type each column its
table lacks and literal-tagging its discriminator value; and filtering the
union by discriminator value `manager` returns exactly the manager table's
rows (projected in the union's column order). -/
theorem polymorphicUnion_engineer_manager
    (engRows mgrRows : List (List Value))
    (hlen : ∀ r ∈ mgrRows, r.length = 3) :
    empUnion.cols = ["id", "name", "golf_swing", "primary_language", "type"]
    ∧ empUnion.arms = [
        ⟨managerTable, [ArmItem.col "id", ArmItem.col "name",
          ArmItem.col "golf_swing",
          ArmItem.nullCast "primary_language" (.varchar 50),
          ArmItem.lit "manager" "type"]⟩,
        ⟨engineerTable, [ArmItem.col "id", ArmItem.col "name",
          ArmItem.nullCast "golf_swing" (.varchar 40),
          ArmItem.col "primary_language",
          ArmItem.lit "engineer" "type"]⟩]
    ∧ (∀ arm ∈ empUnion.arms,
        arm.items.map ArmItem.outKey = empUnion.cols)
    ∧ filterByTag empUnion "manager"
        (evalUnion empUnion [("engineer", engRows), ("manager", mgrRows)])
      = mgrRows.map (fun r => r ++ [Value.null, Value.str "manager"]) := by
  refine ⟨by decide, by decide, by decide, ?_⟩
  have harms : empUnion.arms = [
      ⟨managerTable, [ArmItem.col "id", ArmItem.col "name",
        ArmItem.col "golf_swing",
        ArmItem.nullCast "primary_language" (.varchar 50),
        ArmItem.lit "manager" "type"]⟩,
      ⟨engineerTable, [ArmItem.col "id", ArmItem.col "name",
        ArmItem.nullCast "golf_swing" (.varchar 40),
        ArmItem.col "primary_language",
        ArmItem.lit "engineer" "type"]⟩] := by decide
  have hevu : evalUnion empUnion
      [("engineer", engRows), ("manager", mgrRows)]
      = mgrRows.map (evalArm
          ⟨managerTable, [ArmItem.col "id", ArmItem.col "name",
            ArmItem.col "golf_swing",
            ArmItem.nullCast "primary_language" (.varchar 50),
            ArmItem.lit "manager" "type"]⟩)
        ++ engRows.map (evalArm
          ⟨engineerTable, [ArmItem.col "id", ArmItem.col "name",
            ArmItem.nullCast "golf_swing" (.varchar 40),
            ArmItem.col "primary_language",
            ArmItem.lit "engineer" "type"]⟩) := by
    unfold evalUnion
    rw [harms]
    simp [dictGet, List.find?_cons, managerTable, engineerTable]
  rw [hevu]
  have hcols : empUnion.cols.length - 1 = 4 := by decide
  unfold filterByTag
  rw [hcols, List.filter_append]
  rw [show List.filter
      (fun r => r.getD 4 Value.null == Value.str "manager")
      (engRows.map (evalArm
        ⟨engineerTable, [ArmItem.col "id", ArmItem.col "name",
          ArmItem.nullCast "golf_swing" (.varchar 40),
          ArmItem.col "primary_language",
          ArmItem.lit "engineer" "type"]⟩)) = [] from
    List.filter_eq_nil_iff.mpr (by
      intro a ha
      obtain ⟨r, _, rfl⟩ := List.mem_map.mp ha
      simp [evalArm, evalItem])]
  rw [show List.filter
      (fun r => r.getD 4 Value.null == Value.str "manager")
      (mgrRows.map (evalArm
        ⟨managerTable, [ArmItem.col "id", ArmItem.col "name",
          ArmItem.col "golf_swing",
          ArmItem.nullCast "primary_language" (.varchar 50),
          ArmItem.lit "manager" "type"]⟩)) =
      mgrRows.map (evalArm
        ⟨managerTable, [ArmItem.col "id", ArmItem.col "name",
          ArmItem.col "golf_swing",
          ArmItem.nullCast "primary_language" (.varchar 50),
          ArmItem.lit "manager" "type"]⟩) from
    List.filter_eq_self.mpr (by
      intro a ha
      obtain ⟨r, _, rfl⟩ := List.mem_map.mp ha
      simp [evalArm, evalItem])]
  rw [List.append_nil]
  apply List.map_congr_left
  intro r hr
  obtain ⟨a, b, c, rfl⟩ := List.length_eq_three.mp (hlen r hr)
  simp [evalArm, evalItem, colIdx, managerTable, List.findIdx_cons]

/-- Witness for C1: one engineer row and one manager row; filtering the
union by `manager` returns exactly the manager row, padded with the NULL
`primary_language` and the `manager` tag. -/
theorem polymorphicUnion_engineer_manager_witness :
    filterByTag empUnion "manager"
      (evalUnion empUnion
        [("engineer", [[Value.int 2, Value.str "dilbert",
          Value.str "java"]]),
         ("manager", [[Value.int 1, Value.str "dogbert",
          Value.str "fore!"]])])
      = [[Value.int 1, Value.str "dogbert", Value.str "fore!",
          Value.null, Value.str "manager"]] :=
  (polymorphicUnion_engineer_manager
    [[Value.int 2, Value.str "dilbert", Value.str "java"]]
    [[Value.int 1, Value.str "dogbert", Value.str "fore!"]]
    (by decide)).2.2.2

end SqlAlchemy
